import Mathlib

/-!
Verification development for the lewis-listing-strategy repository
(src/listing_strategy.py, src/db.py).

The embedding models candles, the P&L evaluation, the event store with its
uniqueness constraint, the paginated event fetch with category discovery,
the CSV report merge, and the price formatter.  Prices are modelled as
rationals (the Python code uses floats / `Decimal`, and every claim under
study is an exact arithmetic identity); datetimes are modelled post-parse
as a calendar day plus seconds-of-day, with `none` denoting an absent or
falsy raw value (`_parse_event_date` string parsing is abstracted).
-/

/-- One OHLC candle `[open_time_ms, open, high, low, close]` as produced by
`_alpha_fetch_klines` (src/listing_strategy.py).  The field `o` is the open
price (`open` is a Lean keyword). -/
structure Candle where
  ts : Int
  o : ℚ
  high : ℚ
  low : ℚ
  close : ℚ
deriving DecidableEq

/-- Index of the entry candle: the second candle when more than one exists,
otherwise the first (`start_idx = 1 if len(klines) > 1 else 0` in
`calculate_pnl`, src/listing_strategy.py line 229), written as a structural
match on the series. -/
def entryIdx : List Candle → Nat
  | _ :: _ :: _ => 1
  | _ => 0

/-- Running high from the entry candle onward: Python's
`max(float(k[2]) for k in klines[start_idx:])`, a fold of `max` over the
highs with the first high as the accumulator seed. -/
def maxHighFrom (k : Candle) (rest : List Candle) : ℚ :=
  rest.foldl (fun m c => max m c.high) k.high

/-- Embeds `calculate_pnl` (src/listing_strategy.py lines 225-232):
`None` on an empty series, otherwise the absolute P&L
`max(high over klines[start_idx:]) - entry_open` where `start_idx` is 1
when more than one candle exists and 0 otherwise.  The two non-empty match
arms realise the two values of `start_idx`. -/
def calculate_pnl : List Candle → Option ℚ
  | [] => none
  | [k] => some (maxHighFrom k [] - k.o)
  | _ :: k1 :: rest => some (maxHighFrom k1 rest - k1.o)

/-- Modelled from the spec: the take-profit evaluation mode of the
BacktestEngine (spec §4.4), which is absent from src/ (`calculate_pnl`
implements only the running-high mode).  Entry is the open of the second
candle when at least two candles exist, else of the first; the candles
strictly after the entry candle are scanned, and if any high reaches
`entry * (1 + tp)` the result is exactly `tp`; otherwise the result is
`(final_close - entry) / entry` against the last candle's close; an empty
series yields the distinguished insufficient-data outcome `none`. -/
def evaluate_tp (klines : List Candle) (tp : ℚ) : Option ℚ :=
  match klines with
  | [] => none
  | k0 :: rest =>
    let entry := ((k0 :: rest).getD (entryIdx (k0 :: rest)) k0).o
    if ((k0 :: rest).drop (entryIdx (k0 :: rest) + 1)).any
        (fun c => decide (entry * (1 + tp) ≤ c.high)) then
      some tp
    else
      some (((rest.getLastD k0).close - entry) / entry)

/-- A timezone-aware UTC instant, modelled as a calendar day plus the
seconds elapsed within that day (the `DateTime(timezone=True)` column of
src/db.py; ISO-8601 parsing is abstracted). -/
structure UtcDateTime where
  day : Int
  sec : Nat
deriving DecidableEq

/-- A row of the `coins` table (class `CoinEvent`, src/db.py): `coin_id` is
non-nullable, every other payload column is nullable.  The autoincrement
surrogate primary key is omitted (no claim mentions it). -/
structure CoinEvent where
  coin_id : String
  coin_name : Option String
  coin_symbol : Option String
  coin_fullname : Option String
  event_name : Option String
  event_date : Option UtcDateTime
deriving DecidableEq

/-- A coin record attached to an API event (`event["coins"][i]`,
src/listing_strategy.py lines 307-315); every field may be missing. -/
structure ApiCoin where
  id : Option String
  name : Option String
  symbol : Option String
  fullname : Option String
deriving DecidableEq

/-- A raw CoinMarketCal event as consumed by `_save_api_event`
(src/listing_strategy.py lines 302-318): the `"-"` key, the English
title, the two date fields (modelled post-parse) and the coin list
(`none` models a missing `"coins"` key). -/
structure ApiEvent where
  dash : Option String
  title_en : Option String
  date_event : Option UtcDateTime
  created_date : Option UtcDateTime
  coins : Option (List ApiCoin)
deriving DecidableEq

/-- Python truthiness of an optional string: `None` and `""` are falsy. -/
def truthy (o : Option String) : Bool :=
  match o with
  | none => false
  | some s => decide (s ≠ "")

/-- The event name chosen by `_save_api_event` (line 308):
`event.get("-") or ((event.get("title") or {}).get("en")) or None`. -/
def event_name_of (ev : ApiEvent) : Option String :=
  if truthy ev.dash then ev.dash
  else if truthy ev.title_en then ev.title_en
  else none

/-- The event date chosen by `_save_api_event` (line 309):
`event.get("date_event") or event.get("created_date")`, then parsed;
modelled post-parse, with `none` standing for an absent or falsy raw
value. -/
def event_date_of (ev : ApiEvent) : Option UtcDateTime :=
  match ev.date_event with
  | some d => some d
  | none => ev.created_date

/-- The stored coin id (line 312): `coin.get("id") or ""` — a missing or
empty id is replaced by the empty string, so the column is never null. -/
def coin_id_of (c : ApiCoin) : String :=
  match c.id with
  | some s => if s = "" then "" else s
  | none => ""

/-- The `CoinEvent` row `_save_api_event` builds (lines 311-318) from the
first coin of the event. -/
def rowOf (c : ApiCoin) (ev : ApiEvent) : CoinEvent :=
  { coin_id := coin_id_of c
    coin_name := c.name
    coin_symbol := c.symbol
    coin_fullname := c.fullname
    event_name := event_name_of ev
    event_date := event_date_of ev }

/-- SQL comparison of two nullable column values: equal only when both are
non-NULL and equal — NULL compares unequal to everything, NULL included, so
SQLite's UNIQUE treats NULLs as distinct. -/
def nonNullEq {α : Type} [DecidableEq α] (a b : Option α) : Bool :=
  match a, b with
  | some x, some y => decide (x = y)
  | _, _ => false

/-- Whether two rows collide on the `uq_coin_event` uniqueness constraint
`(coin_id, event_name, event_date)` of src/db.py lines 32-34 under
SQLite's semantics: `coin_id` (non-nullable) equal, and the nullable
`event_name` and `event_date` each non-NULL and equal — a row with a NULL
field never collides with any row. -/
def sameKey (a b : CoinEvent) : Bool :=
  decide (a.coin_id = b.coin_id) && nonNullEq a.event_name b.event_name
    && nonNullEq a.event_date b.event_date

/-- A persistence failure other than the uniqueness violation (the
uniqueness violation itself — SQLAlchemy's `IntegrityError` — is caught
inside the insert and never escapes). -/
inductive PersistError
  | otherError
deriving DecidableEq

/-- Embeds the `session.add`/`session.commit` block of `_save_api_event`
(lines 319-327) over a list-of-rows model of the `coins` table: a commit
raises `IntegrityError` exactly when the new row collides with a stored
row under the constraint's SQL semantics (`sameKey`; rows with a NULL
`event_name` or `event_date` never collide and are committed again), in
which case the session is rolled back (the table is unchanged) and `false`
is reported without raising; `fault` models any other persistence failure
at commit time, which propagates; otherwise the row is appended and `true`
reported. -/
def insertEvent (store : List CoinEvent) (row : CoinEvent) (fault : Bool) :
    Except PersistError (List CoinEvent × Bool) :=
  if store.any (fun r => sameKey r row) then Except.ok (store, false)
  else if fault then Except.error PersistError.otherError
  else Except.ok (store ++ [row], true)

/-- Embeds `_save_api_event` (lines 302-327): `event.get("coins") or []`
empty means no row is attempted and `False` is returned; otherwise the row
is built from the first coin only and inserted. -/
def save_api_event (store : List CoinEvent) (ev : ApiEvent) (fault : Bool) :
    Except PersistError (List CoinEvent × Bool) :=
  match ev.coins.getD [] with
  | [] => Except.ok (store, false)
  | c :: _ => insertEvent store (rowOf c ev) fault

/-- Embeds `_query_events_for_day` (lines 244-247): the rows whose
`event_date`'s UTC calendar date equals the given day (`func.date` of a
SQL NULL is NULL, so rows with a null date never match). -/
def query_events_for_day (store : List CoinEvent) (day : Int) :
    List CoinEvent :=
  store.filter (fun r =>
    match r.event_date with
    | some d => decide (d.day = day)
    | none => false)

/-- The error kinds the category-discovery call can raise:
`raise_for_status` raises `requests.HTTPError` on a non-success status;
`requests.get` can raise a connection error or timeout (subclasses of
`RequestException` but not of `HTTPError`); `r.json()` can raise a JSON
decode error (also not an `HTTPError`). -/
inductive ReqError
  | httpError
  | connectionError
  | jsonError
deriving DecidableEq

/-- One page of the events endpoint response:
`{ body: [...], _metadata: { page_count } }`. -/
structure EventPage where
  body : List ApiEvent
  page_count : Option Nat
deriving DecidableEq

/-- Embeds the pagination loop of `_fetch_events_for_window`
(lines 269-288): starting from page 1, stop on an empty body, or when the
reported `page_count` is reached, or on a short page; the list argument
holds the successive page responses (an exhausted list behaves as further
empty pages). -/
def fetchPages : List EventPage → Nat → Nat → List ApiEvent
  | [], _, _ => []
  | p :: rest, per_page, page =>
    if p.body.isEmpty then []
    else
      p.body ++
        (if (match p.page_count with
             | some pc => decide (pc ≤ page)
             | none => false)
            || decide (p.body.length < per_page) then []
         else fetchPages rest per_page (page + 1))

/-- Embeds `_fetch_events_for_window` (lines 250-289) parametrised by the
outcome of category discovery and by the server's pages as a function of
the optional `categories` parameter.  The page size is clamped to
`[1, 75]`; a non-empty discovered id string becomes the category filter,
an empty one is dropped (`if listing_ids:`); a discovery failure that is a
`requests.HTTPError` is swallowed (`except requests.HTTPError: pass`) and
the fetch proceeds without the filter; any other discovery failure
propagates. -/
def fetch_events_for_window (discovery : Except ReqError String)
    (pages : Option String → List EventPage) (limit : Nat) :
    Except ReqError (List ApiEvent) :=
  let per_page := max 1 (min limit 75)
  match discovery with
  | Except.ok ids =>
      Except.ok (fetchPages (pages (if ids = "" then none else some ids))
        per_page 1)
  | Except.error ReqError.httpError =>
      Except.ok (fetchPages (pages none) per_page 1)
  | Except.error e => Except.error e

/-- A row of reports/strategy_results.csv with its fixed column set
(`_write_strategy_results`, src/listing_strategy.py lines 366-369); `PL`
is the `"P/L"` column. -/
structure ReportRow where
  Date : String
  Ticker : String
  Open : String
  High : String
  Strategy : String
  Status : String
  Entry : String
  Stop : String
  Target : String
  PL : String
deriving DecidableEq

/-- The dedup key `(Date, Ticker, Strategy)` (line 380). -/
def rowKey (r : ReportRow) : String × String × String :=
  (r.Date, r.Ticker, r.Strategy)

/-- The merge step of `_write_strategy_results` (lines 379-389): keep the
old rows whose key matches no new row, and write the new rows first,
the surviving old rows after them. -/
def mergeRows (old rows : List ReportRow) : List ReportRow :=
  rows ++ old.filter (fun r => decide (rowKey r ∉ rows.map rowKey))

/-- The fixed CSV header (lines 366-369). -/
def fieldnames : List String :=
  ["Date", "Ticker", "Open", "High", "Strategy", "Status", "Entry",
   "Stop", "Target", "P/L"]

/-- A row rendered in header order. -/
def toRecord (r : ReportRow) : List String :=
  [r.Date, r.Ticker, r.Open, r.High, r.Strategy, r.Status, r.Entry,
   r.Stop, r.Target, r.PL]

/-- Embeds `_write_strategy_results` (lines 357-393) as the list of CSV
records it leaves in the report file: the header first, then the new rows,
then the retained old rows (`old` is the previously stored table, empty
when the file does not exist; the atomic temp-file rename is not
modelled). -/
def write_strategy_results (old rows : List ReportRow) :
    List (List String) :=
  fieldnames :: (mergeRows old rows).map toRecord

/-- The quantisation table of `_fmt_price` (lines 344-353) as a number of
decimal places: 4 for values at least 1, then 6, 8, 9 and 10 as the value
drops below 1, 0.1, 0.01 and 0.001. -/
def fmtPlaces (x : ℚ) : Nat :=
  if 1 ≤ x then 4
  else if 1/10 ≤ x then 6
  else if 1/100 ≤ x then 8
  else if 1/1000 ≤ x then 9
  else 10

/-- The decimal digits of `n` padded to exactly `places` digits, most
significant first (the fractional part `format(..., "f")` prints for a
quantised `Decimal` with exponent `-places`). -/
def padDigits (n : Nat) (places : Nat) : List Char :=
  ((List.range places).map (fun i => Char.ofNat (48 + n / 10 ^ i % 10))).reverse

/-- `ROUND_HALF_UP` (round half away from zero) applied to the magnitude
of `x` at `places` decimal places, as a scaled natural number. -/
def roundHalfUpAbs (x : ℚ) (places : Nat) : Nat :=
  (Int.floor (|x| * 10 ^ places + 1/2)).toNat

/-- Embeds `_fmt_price` (lines 332-354): `None` renders as the empty
string; otherwise the value is quantised with `ROUND_HALF_UP` at the
magnitude-dependent number of places and rendered in fixed-point form
(sign, integer part, point, exactly `places` fractional digits). -/
def fmt_price : Option ℚ → String
  | none => ""
  | some x =>
    let places := fmtPlaces x
    let m := roundHalfUpAbs x places
    ((if x < 0 then "-" else "") ++ toString (m / 10 ^ places)) ++
      ("." ++ String.mk (padDigits (m % 10 ^ places) places))

/-- Number of characters after the last point of a rendered price: the
length of the longest point-free suffix. -/
def decPlaces (s : String) : Nat :=
  (s.data.reverse.takeWhile (fun c => c != '.')).length

/-- A concrete stored event row used as a witness fixture. -/
def fooRow : CoinEvent :=
  ⟨"foo-id", some "Foo", some "FOO", some "Foo Coin",
   some "Binance listing", some ⟨19723, 0⟩⟩

/-- A row with NULL `event_name` and `event_date`, as `_save_api_event`
builds for an id-less coin on an event with falsy titles and unparseable
dates; it never collides on the uniqueness constraint because SQLite
treats NULLs as distinct. -/
def nullFieldRow : CoinEvent := ⟨"", none, none, none, none, none⟩

/-- A concrete API coin used as a witness fixture. -/
def fooApiCoin : ApiCoin := ⟨some "foo-id", some "Foo", some "FOO", some "Foo Coin"⟩

/-- A concrete API event used as a witness fixture. -/
def fooApiEvent : ApiEvent :=
  ⟨some "Binance listing", none, some ⟨19723, 0⟩, none, some [fooApiCoin]⟩

/-- An API event with no coins attached, used as a witness fixture. -/
def noCoinsEvent : ApiEvent := ⟨none, none, none, none, none⟩

/-- An id-less API coin used as a witness fixture. -/
def idlessCoinA : ApiCoin := ⟨none, some "A", some "AAA", none⟩

/-- Another id-less API coin used as a witness fixture. -/
def idlessCoinB : ApiCoin := ⟨none, some "B", some "BBB", none⟩

/-- A concrete report row for key ("2024-01-01", "FOO", "lewis-listing"),
first version, used as a witness fixture. -/
def rowV1 : ReportRow :=
  ⟨"2024-01-01", "FOO", "1.0000", "1.3500", "lewis-listing", "x",
   "1.0000", "0.9900", "1.3500", "0.3500"⟩

/-- A second-version row for the same key as rowV1. -/
def rowV2 : ReportRow :=
  ⟨"2024-01-01", "FOO", "1.0000", "1.4000", "lewis-listing", "ok",
   "1.0000", "0.9900", "1.4000", "0.4000"⟩

/-- The fabricated hourly series of the end-to-end scenario (spec section 8):
candle 0 at the listing hour, candle 1 with high 1.05 and close 1.02, candle
2 with high 1.35 and close 1.3. -/
def specCandle0 : Candle := ⟨0, 1, 1, 1, 1⟩

/-- Second candle of the spec scenario series. -/
def specCandle1 : Candle := ⟨3600000, 1, 21/20, 19/20, 51/50⟩

/-- Third candle of the spec scenario series. -/
def specCandle2 : Candle := ⟨7200000, 1, 27/20, 1, 13/10⟩

/-- The spec scenario series itself. -/
def specSeries : List Candle := [specCandle0, specCandle1, specCandle2]

lemma getLast?_cons_getLastD {α : Type} (k0 : α) (rest : List α) :
    (k0 :: rest).getLast? = some (rest.getLastD k0) := by
  induction rest generalizing k0 with
  | nil => rfl
  | cons a t ih => rw [List.getLast?_cons_cons, ih, List.getLastD_cons]

lemma evaluate_tp_cons_cons (k0 k1 : Candle) (rest : List Candle) (tp : ℚ) :
    evaluate_tp (k0 :: k1 :: rest) tp =
      (if rest.any (fun c => decide (k1.o * (1 + tp) ≤ c.high)) then some tp
       else some (((rest.getLastD k1).close - k1.o) / k1.o)) := by
  unfold evaluate_tp
  simp only [entryIdx, List.getD, List.get?, List.drop, Option.getD_some]
  rw [List.getLastD_cons]

/-- C1: in take-profit mode, whenever some candle strictly after the entry
candle has a high of at least entry times one plus tp, evaluate returns
exactly tp (capped payoff). -/
theorem evaluate_tp_capped (klines : List Candle) (tp : ℚ) (k : Candle)
    (hk : klines.get? (entryIdx klines) = some k)
    (hhit : ∃ c ∈ klines.drop (entryIdx klines + 1), k.o * (1 + tp) ≤ c.high) :
    evaluate_tp klines tp = some tp := by
  match klines with
  | [] => simp at hk
  | [k0] => simp [entryIdx] at hhit
  | k0 :: k1 :: rest =>
    have hk1 : some k1 = some k := hk
    injection hk1 with hk1
    subst hk1
    obtain ⟨c, hc, hle⟩ := hhit
    have hcond : rest.any (fun c => decide (k1.o * (1 + tp) ≤ c.high)) = true :=
      List.any_eq_true.mpr ⟨c, hc, decide_eq_true hle⟩
    rw [evaluate_tp_cons_cons, if_pos hcond]

/-- C2: in take-profit mode, for a non-empty series in which no candle
strictly after the entry candle reaches the target, evaluate returns the
relative gain of the last close over the entry open. -/
theorem evaluate_tp_miss (klines : List Candle) (tp : ℚ) (k lastc : Candle)
    (hk : klines.get? (entryIdx klines) = some k)
    (hlast : klines.getLast? = some lastc)
    (hmiss : ∀ c ∈ klines.drop (entryIdx klines + 1), c.high < k.o * (1 + tp)) :
    evaluate_tp klines tp = some ((lastc.close - k.o) / k.o) := by
  match klines with
  | [] => simp at hk
  | [k0] =>
    have hk1 : some k0 = some k := hk
    injection hk1 with hk1
    rw [getLast?_cons_getLastD] at hlast
    have hl1 : some k0 = some lastc := hlast
    injection hl1 with hl1
    subst hk1
    subst hl1
    rfl
  | k0 :: k1 :: rest =>
    have hk1 : some k1 = some k := hk
    injection hk1 with hk1
    subst hk1
    rw [getLast?_cons_getLastD, List.getLastD_cons] at hlast
    injection hlast with hl1
    have hcond : rest.any (fun c => decide (k1.o * (1 + tp) ≤ c.high)) = false := by
      rw [List.any_eq_false]
      intro c hc
      simp only [decide_eq_true_eq]
      exact not_le.mpr (hmiss c hc)
    rw [evaluate_tp_cons_cons, if_neg (by rw [hcond]; exact Bool.false_ne_true), hl1]

/-- C3: calculate_pnl returns none exactly on the empty series; on any
non-empty series it returns the maximum high from the entry candle onward
minus the entry open, the entry being the open of the second candle when
at least two exist; a single-candle series yields a numeric result. -/
theorem calculate_pnl_spec :
    (∀ klines : List Candle, calculate_pnl klines = none ↔ klines = [])
    ∧ (∀ (klines : List Candle) (k : Candle) (M : ℚ),
        klines.get? (entryIdx klines) = some k →
        ((klines.drop (entryIdx klines)).map Candle.high).max? = some M →
        calculate_pnl klines = some (M - k.o))
    ∧ (∀ k : Candle, calculate_pnl [k] = some (k.high - k.o)) := by
  refine ⟨?_, ?_, ?_⟩
  · intro klines
    match klines with
    | [] => simp [calculate_pnl]
    | [k] => simp [calculate_pnl]
    | k0 :: k1 :: rest => simp [calculate_pnl]
  · intro klines k M hk hM
    match klines with
    | [] => simp at hk
    | [k0] =>
      have hk1 : some k0 = some k := hk
      injection hk1 with hk1
      have hM1 : some k0.high = some M := hM
      injection hM1 with hM1
      subst hk1
      subst hM1
      rfl
    | k0 :: k1 :: rest =>
      have hk1 : some k1 = some k := hk
      injection hk1 with hk1
      subst hk1
      have hM1 : some (List.foldl max k1.high (rest.map Candle.high)) = some M := hM
      injection hM1 with hM1
      subst hM1
      rw [show calculate_pnl (k0 :: k1 :: rest) = some (maxHighFrom k1 rest - k1.o)
        from rfl]
      rw [maxHighFrom, List.foldl_map]
  · intro k
    rfl

theorem evaluate_tp_capped_witness :
    evaluate_tp specSeries (3/10) = some (3/10) :=
  evaluate_tp_capped _ (3/10) specCandle1 rfl
    ⟨specCandle2, by simp [specSeries, entryIdx], by norm_num [specCandle1, specCandle2]⟩

theorem evaluate_tp_miss_witness :
    evaluate_tp [specCandle0, specCandle1] (3/10)
      = some ((specCandle1.close - specCandle1.o) / specCandle1.o) :=
  evaluate_tp_miss _ (3/10) specCandle1 specCandle1 rfl rfl
    (by intro c hc; simp [entryIdx] at hc)

theorem calculate_pnl_spec_witness :
    calculate_pnl specSeries = some ((27:ℚ)/20 - specCandle1.o) := by
  have hM : ((specSeries.drop (entryIdx specSeries)).map Candle.high).max?
      = some ((27:ℚ)/20) := by
    rw [show ((specSeries.drop (entryIdx specSeries)).map Candle.high).max?
      = some (max ((21:ℚ)/20) (27/20)) from rfl]
    rw [max_eq_right (by norm_num)]
  exact calculate_pnl_spec.2.1 specSeries specCandle1 ((27:ℚ)/20) rfl hM

/-- C4 counterexample: a row with NULL event_name and event_date (as built
for an event with falsy titles and unparseable dates) never collides on the
uniqueness constraint, because SQLite treats NULLs as distinct; inserting
the very same event a second time is therefore committed again — reported
true, not false, with the table ending in two copies — refuting the claim
that an already-stored triple rolls back, reports false and leaves exactly
one row. -/
theorem insert_nulls_not_deduped :
    insertEvent [nullFieldRow] nullFieldRow false
      = Except.ok ([nullFieldRow, nullFieldRow], true)
    ∧ ([nullFieldRow, nullFieldRow].filter
        (fun r => decide (r = nullFieldRow))).length = 2 :=
  ⟨rfl, rfl⟩

/-- C4 (amended): inserting a row that collides with a stored row on the
uniqueness constraint — coin_id equal and event_name and event_date each
non-null and equal, since SQLite UNIQUE treats NULLs as distinct — rolls
the session back, leaves the table unchanged, and reports false without
raising; any other persistence failure propagates; hence inserting the
same event twice, when its event_name and event_date are non-null, leaves
exactly one matching row and query_for_day agrees before and after the
duplicate attempt. -/
theorem insert_duplicate_idempotent :
    (∀ (store : List CoinEvent) (row : CoinEvent) (fault : Bool),
        (∃ r ∈ store, sameKey r row = true) →
        insertEvent store row fault = Except.ok (store, false))
    ∧ (∀ (store : List CoinEvent) (row : CoinEvent),
        (¬ ∃ r ∈ store, sameKey r row = true) →
        insertEvent store row true = Except.error PersistError.otherError)
    ∧ (∀ (store s1 : List CoinEvent) (row : CoinEvent) (nm : String)
        (dt : UtcDateTime),
        row.event_name = some nm → row.event_date = some dt →
        (¬ ∃ r ∈ store, sameKey r row = true) →
        insertEvent store row false = Except.ok (s1, true) →
        insertEvent s1 row false = Except.ok (s1, false)
        ∧ (s1.filter (fun r => sameKey r row)).length = 1
        ∧ (∀ (s2 : List CoinEvent) (b : Bool),
            insertEvent s1 row false = Except.ok (s2, b) →
            ∀ day : Int,
              query_events_for_day s2 day = query_events_for_day s1 day)) := by
  have hanyF : ∀ (store : List CoinEvent) (row : CoinEvent),
      (¬ ∃ r ∈ store, sameKey r row = true) →
      store.any (fun r => sameKey r row) = false := by
    intro store row h
    rw [List.any_eq_false]
    intro r hr hc
    exact h ⟨r, hr, hc⟩
  refine ⟨?_, ?_, ?_⟩
  · intro store row fault h
    unfold insertEvent
    rw [List.any_eq_true.mpr h]
    rfl
  · intro store row h
    unfold insertEvent
    rw [hanyF store row h]
    rfl
  · intro store s1 row nm dt hn hd h hins
    have heq : insertEvent store row false = Except.ok (store ++ [row], true) := by
      unfold insertEvent
      rw [hanyF store row h]
      rfl
    rw [heq] at hins
    injection hins with hp
    have hs1 : store ++ [row] = s1 := congrArg Prod.fst hp
    subst hs1
    have hself : sameKey row row = true := by
      simp [sameKey, nonNullEq, hn, hd]
    have hdup : insertEvent (store ++ [row]) row false
        = Except.ok (store ++ [row], false) := by
      have hc : ((store ++ [row]).any fun r => sameKey r row) = true :=
        List.any_eq_true.mpr
          ⟨row, List.mem_append_right store (List.mem_singleton_self row), hself⟩
      unfold insertEvent
      rw [hc]
      rfl
    refine ⟨hdup, ?_, ?_⟩
    · rw [List.filter_append]
      have hnilf : store.filter (fun r => sameKey r row) = [] := by
        rw [List.filter_eq_nil_iff]
        intro r hr hc
        exact h ⟨r, hr, hc⟩
      rw [hnilf, List.filter_cons, if_pos hself]
      simp
    · intro s2 b h2 day
      rw [hdup] at h2
      injection h2 with hp2
      have hs2 : store ++ [row] = s2 := congrArg Prod.fst hp2
      rw [← hs2]

/-- C8: an event with a missing or empty coin list is not persisted and
reports false; when several coins are attached, only the first coin
determines the persisted row. -/
theorem save_api_event_first_coin (store : List CoinEvent) (ev : ApiEvent)
    (fault : Bool) :
    ((ev.coins = none ∨ ev.coins = some []) →
      save_api_event store ev fault = Except.ok (store, false))
    ∧ (∀ (c : ApiCoin) (rest : List ApiCoin), ev.coins = some (c :: rest) →
        save_api_event store ev fault = insertEvent store (rowOf c ev) fault
        ∧ save_api_event store ev fault
            = save_api_event store { ev with coins := some [c] } fault) := by
  constructor
  · intro h
    rcases h with h | h <;> simp [save_api_event, h]
  · intro c rest h
    constructor
    · simp [save_api_event, h]
    · simp only [save_api_event, h, Option.getD_some]
      rfl

/-- C9: every persisted row has a non-null coin id — an id-less API coin is
stored with the empty string — so two id-less coins share coin_id "" and
may deduplicate against each other: when both events carry the same
non-null name and date they collide on the uniqueness constraint and the
second insert is a no-op (with a NULL field they would not collide, since
SQLite treats NULLs as distinct). -/
theorem coin_id_never_null :
    (∀ (c : ApiCoin) (ev : ApiEvent), c.id = none → (rowOf c ev).coin_id = "")
    ∧ (∀ (store : List CoinEvent) (e1 e2 : ApiEvent) (c1 c2 : ApiCoin)
        (fault : Bool) (nm : String) (dt : UtcDateTime),
        c1.id = none → c2.id = none →
        event_name_of e1 = some nm → event_name_of e2 = some nm →
        event_date_of e1 = some dt → event_date_of e2 = some dt →
        rowOf c1 e1 ∈ store →
        insertEvent store (rowOf c2 e2) fault = Except.ok (store, false)) := by
  constructor
  · intro c ev h
    simp [rowOf, coin_id_of, h]
  · intro store e1 e2 c1 c2 fault nm dt h1 h2 hn1 hn2 hd1 hd2 hmem
    have hkey : sameKey (rowOf c1 e1) (rowOf c2 e2) = true := by
      simp [sameKey, nonNullEq, rowOf, coin_id_of, h1, h2, hn1, hn2, hd1, hd2]
    have hc : (store.any fun r => sameKey r (rowOf c2 e2)) = true :=
      List.any_eq_true.mpr ⟨rowOf c1 e1, hmem, hkey⟩
    unfold insertEvent
    rw [hc]
    rfl

theorem insert_duplicate_idempotent_witness :
    insertEvent [fooRow] fooRow false = Except.ok ([fooRow], false) :=
  (insert_duplicate_idempotent.2.2 [] [fooRow] fooRow "Binance listing"
    ⟨19723, 0⟩ rfl rfl (by simp) rfl).1

theorem save_api_event_first_coin_witness :
    save_api_event [] noCoinsEvent false = Except.ok ([], false) :=
  (save_api_event_first_coin [] noCoinsEvent false).1 (Or.inl rfl)

theorem coin_id_never_null_witness :
    insertEvent [rowOf idlessCoinA fooApiEvent] (rowOf idlessCoinB fooApiEvent)
      false = Except.ok ([rowOf idlessCoinA fooApiEvent], false) :=
  coin_id_never_null.2 [rowOf idlessCoinA fooApiEvent] fooApiEvent fooApiEvent
    idlessCoinA idlessCoinB false "Binance listing" ⟨19723, 0⟩
    rfl rfl rfl rfl rfl rfl (by simp)

lemma takeWhile_append_stop {α : Type} (p : α → Bool) (l1 l2 : List α) (x : α)
    (h1 : ∀ a ∈ l1, p a = true) (hx : p x = false) :
    (l1 ++ x :: l2).takeWhile p = l1 := by
  induction l1 with
  | nil => simp [List.takeWhile_cons, hx]
  | cons a t ih =>
    rw [List.cons_append, List.takeWhile_cons, if_pos (h1 a (List.mem_cons_self a t)),
      ih (fun b hb => h1 b (List.mem_cons_of_mem a hb))]

lemma padDigits_length (n p : Nat) : (padDigits n p).length = p := by
  simp [padDigits]

lemma padDigits_ne_dot (n p : Nat) : ∀ a ∈ padDigits n p, (a != '.') = true := by
  intro a ha
  simp only [padDigits, List.mem_reverse, List.mem_map, List.mem_range] at ha
  obtain ⟨i, _, rfl⟩ := ha
  have hd : n / 10 ^ i % 10 < 10 := Nat.mod_lt _ (by norm_num)
  set d := n / 10 ^ i % 10 with hdef
  clear_value d
  interval_cases d <;> decide

lemma fmt_price_some (x : ℚ) :
    fmt_price (some x) =
      ((if x < 0 then "-" else "")
          ++ toString (roundHalfUpAbs x (fmtPlaces x) / 10 ^ fmtPlaces x)) ++
        ("." ++ String.mk (padDigits (roundHalfUpAbs x (fmtPlaces x) % 10 ^ fmtPlaces x)
          (fmtPlaces x))) := rfl

lemma decPlaces_pre_frac (pre : String) (n p : Nat) :
    decPlaces (pre ++ ("." ++ String.mk (padDigits n p))) = p := by
  unfold decPlaces
  rw [String.data_append, String.data_append]
  rw [show ("." : String).data = ['.'] from rfl,
    show (String.mk (padDigits n p)).data = padDigits n p from rfl]
  rw [show (['.'] ++ padDigits n p : List Char) = '.' :: padDigits n p from rfl]
  rw [List.reverse_append, List.reverse_cons, List.append_assoc,
    List.singleton_append]
  rw [takeWhile_append_stop (fun c => c != '.') (padDigits n p).reverse
    (pre.data.reverse) '.'
    (fun a ha => padDigits_ne_dot n p a (List.mem_reverse.mp ha)) (by decide)]
  rw [List.length_reverse, padDigits_length]

lemma decPlaces_fmt_price (x : ℚ) :
    decPlaces (fmt_price (some x)) = fmtPlaces x := by
  rw [fmt_price_some]
  exact decPlaces_pre_frac _ _ _

/-- C5: the report merge drops every old row whose key occurs among the new
rows and writes the header, then the new rows, then the surviving old rows;
writing rows for a key and then second-version rows for the same key leaves
exactly one row for that key with the second-version values, while rows for
unrelated keys survive untouched. -/
theorem merge_write_key_stable (old v1 v2 : List ReportRow)
    (K : String × String × String) (r2 : ReportRow)
    (h2 : v2.filter (fun r => decide (rowKey r = K)) = [r2]) :
    (mergeRows (mergeRows old v1) v2).filter (fun r => decide (rowKey r = K))
      = [r2]
    ∧ (∀ r ∈ mergeRows old v1, (∀ n ∈ v2, rowKey n ≠ rowKey r) →
        r ∈ mergeRows (mergeRows old v1) v2)
    ∧ (∀ r ∈ old, (∃ n ∈ v1, rowKey n = rowKey r) →
        r ∉ mergeRows old v1 ∨ r ∈ v1)
    ∧ (write_strategy_results old v1).head? = some fieldnames
    ∧ write_strategy_results old v1
        = fieldnames ::
            (v1 ++ old.filter (fun r => decide (rowKey r ∉ v1.map rowKey))).map
              toRecord := by
  have hr2mem : r2 ∈ v2.filter (fun r => decide (rowKey r = K)) := by
    rw [h2]; exact List.mem_singleton_self r2
  have hr2v : r2 ∈ v2 := (List.mem_filter.mp hr2mem).1
  have hr2K : rowKey r2 = K := of_decide_eq_true (List.mem_filter.mp hr2mem).2
  refine ⟨?_, ?_, ?_, rfl, rfl⟩
  · have hexp : mergeRows (mergeRows old v1) v2
        = v2 ++ (mergeRows old v1).filter
            (fun r => decide (rowKey r ∉ v2.map rowKey)) := rfl
    have hnil : ((mergeRows old v1).filter
        (fun r => decide (rowKey r ∉ v2.map rowKey))).filter
          (fun r => decide (rowKey r = K)) = [] := by
      rw [List.filter_eq_nil_iff]
      intro a ha hpa
      have hq : rowKey a ∉ v2.map rowKey :=
        of_decide_eq_true (List.mem_filter.mp ha).2
      have hak : rowKey a = K := of_decide_eq_true hpa
      exact hq (by rw [hak, ← hr2K]; exact List.mem_map_of_mem rowKey hr2v)
    rw [hexp, List.filter_append, h2, hnil, List.append_nil]
  · intro r hr hnone
    have hexp : mergeRows (mergeRows old v1) v2
        = v2 ++ (mergeRows old v1).filter
            (fun r => decide (rowKey r ∉ v2.map rowKey)) := rfl
    rw [hexp]
    refine List.mem_append_right v2 (List.mem_filter.mpr ⟨hr, decide_eq_true ?_⟩)
    intro hin
    obtain ⟨n, hn, heq⟩ := List.mem_map.mp hin
    exact hnone n hn heq
  · intro r hr hex
    by_cases hv : r ∈ v1
    · exact Or.inr hv
    · refine Or.inl ?_
      intro hmem
      have hexp : mergeRows old v1
          = v1 ++ old.filter (fun r => decide (rowKey r ∉ v1.map rowKey)) := rfl
      rw [hexp, List.mem_append] at hmem
      rcases hmem with hmem | hmem
      · exact hv hmem
      · have hq : rowKey r ∉ v1.map rowKey :=
          of_decide_eq_true (List.mem_filter.mp hmem).2
        obtain ⟨n, hn, heq⟩ := hex
        exact hq (heq ▸ List.mem_map_of_mem rowKey hn)

/-- C6 counterexample: a category-discovery failure that is not an HTTP
status error (here a connection error) aborts the event fetch, although an
unfiltered fetch of the same pages would have succeeded, refuting "for
every failure of category discovery the event fetch proceeds unfiltered". -/
theorem category_discovery_failure_fatal :
    fetch_events_for_window (Except.error ReqError.connectionError)
        (fun _ => [⟨[noCoinsEvent], none⟩]) 75
      = Except.error ReqError.connectionError
    ∧ fetch_events_for_window (Except.error ReqError.httpError)
        (fun _ => [⟨[noCoinsEvent], none⟩]) 75
      = Except.ok [noCoinsEvent] :=
  ⟨rfl, rfl⟩

/-- C6 (amended): a category-discovery failure that is an HTTP status error
is swallowed and pagination proceeds without the category filter; discovery
failures of any other kind propagate out of the fetch. -/
theorem category_discovery_http_nonfatal
    (pages : Option String → List EventPage) (limit : Nat) :
    fetch_events_for_window (Except.error ReqError.httpError) pages limit
      = Except.ok (fetchPages (pages none) (max 1 (min limit 75)) 1)
    ∧ fetch_events_for_window (Except.error ReqError.connectionError) pages limit
      = Except.error ReqError.connectionError
    ∧ fetch_events_for_window (Except.error ReqError.jsonError) pages limit
      = Except.error ReqError.jsonError :=
  ⟨rfl, rfl, rfl⟩

/-- C7: price formatting renders 0.5 with 6 decimal places, 2.0 with 4,
0.00005 with 10; every value at least 1 gets 4 places and the precision
grows to 6, 8, 9 and 10 places as the value drops below 1, 0.1, 0.01 and
0.001; ties round half away from zero (2.00005 renders as 2.0001). -/
theorem fmt_price_precision :
    fmt_price (some (1/2)) = "0.500000"
    ∧ decPlaces (fmt_price (some (1/2))) = 6
    ∧ fmt_price (some 2) = "2.0000"
    ∧ decPlaces (fmt_price (some 2)) = 4
    ∧ fmt_price (some (1/20000)) = "0.0000500000"
    ∧ decPlaces (fmt_price (some (1/20000))) = 10
    ∧ (∀ x : ℚ, 1 ≤ x → decPlaces (fmt_price (some x)) = 4)
    ∧ (∀ x : ℚ, 1/10 ≤ x → x < 1 → decPlaces (fmt_price (some x)) = 6)
    ∧ (∀ x : ℚ, 1/100 ≤ x → x < 1/10 → decPlaces (fmt_price (some x)) = 8)
    ∧ (∀ x : ℚ, 1/1000 ≤ x → x < 1/100 → decPlaces (fmt_price (some x)) = 9)
    ∧ (∀ x : ℚ, x < 1/1000 → decPlaces (fmt_price (some x)) = 10)
    ∧ fmt_price (some (200005/100000)) = "2.0001" := by
  have hp1 : fmtPlaces ((1:ℚ)/2) = 6 := by
    unfold fmtPlaces
    rw [if_neg (by norm_num), if_pos (by norm_num)]
  have hm1 : roundHalfUpAbs ((1:ℚ)/2) 6 = 500000 := by
    have h : (⌊|(1:ℚ)/2| * 10 ^ 6 + 1/2⌋ : ℤ) = 500000 := by
      rw [abs_of_pos (show (0:ℚ) < 1/2 by norm_num)]
      norm_num
    unfold roundHalfUpAbs
    rw [h]
    rfl
  have hp2 : fmtPlaces (2:ℚ) = 4 := by
    unfold fmtPlaces
    rw [if_pos (by norm_num)]
  have hm2 : roundHalfUpAbs (2:ℚ) 4 = 20000 := by
    have h : (⌊|(2:ℚ)| * 10 ^ 4 + 1/2⌋ : ℤ) = 20000 := by norm_num
    unfold roundHalfUpAbs
    rw [h]
    rfl
  have hp3 : fmtPlaces ((1:ℚ)/20000) = 10 := by
    unfold fmtPlaces
    rw [if_neg (by norm_num), if_neg (by norm_num), if_neg (by norm_num),
      if_neg (by norm_num)]
  have hm3 : roundHalfUpAbs ((1:ℚ)/20000) 10 = 500000 := by
    have h : (⌊|(1:ℚ)/20000| * 10 ^ 10 + 1/2⌋ : ℤ) = 500000 := by
      rw [abs_of_pos (show (0:ℚ) < 1/20000 by norm_num)]
      norm_num
    unfold roundHalfUpAbs
    rw [h]
    rfl
  have hp4 : fmtPlaces ((200005:ℚ)/100000) = 4 := by
    unfold fmtPlaces
    rw [if_pos (by norm_num)]
  have hm4 : roundHalfUpAbs ((200005:ℚ)/100000) 4 = 20001 := by
    have h : (⌊|(200005:ℚ)/100000| * 10 ^ 4 + 1/2⌋ : ℤ) = 20001 := by
      rw [abs_of_pos (show (0:ℚ) < 200005/100000 by norm_num)]
      norm_num
    unfold roundHalfUpAbs
    rw [h]
    rfl
  refine ⟨?_, ?_, ?_, ?_, ?_, ?_, ?_, ?_, ?_, ?_, ?_, ?_⟩
  · rw [fmt_price_some, hp1, hm1, if_neg (by norm_num : ¬ ((1:ℚ)/2 < 0))]
    decide
  · rw [decPlaces_fmt_price, hp1]
  · rw [fmt_price_some, hp2, hm2, if_neg (by norm_num : ¬ ((2:ℚ) < 0))]
    decide
  · rw [decPlaces_fmt_price, hp2]
  · rw [fmt_price_some, hp3, hm3, if_neg (by norm_num : ¬ ((1:ℚ)/20000 < 0))]
    decide
  · rw [decPlaces_fmt_price, hp3]
  · intro x hx
    rw [decPlaces_fmt_price]
    unfold fmtPlaces
    rw [if_pos hx]
  · intro x h1 h2
    rw [decPlaces_fmt_price]
    unfold fmtPlaces
    rw [if_neg (not_le.mpr h2), if_pos h1]
  · intro x h1 h2
    rw [decPlaces_fmt_price]
    unfold fmtPlaces
    rw [if_neg (by linarith), if_neg (not_le.mpr h2), if_pos h1]
  · intro x h1 h2
    rw [decPlaces_fmt_price]
    unfold fmtPlaces
    rw [if_neg (by linarith), if_neg (by linarith), if_neg (not_le.mpr h2),
      if_pos h1]
  · intro x h1
    rw [decPlaces_fmt_price]
    unfold fmtPlaces
    rw [if_neg (by linarith), if_neg (by linarith), if_neg (by linarith),
      if_neg (not_le.mpr h1)]
  · rw [fmt_price_some, hp4, hm4,
      if_neg (by norm_num : ¬ ((200005:ℚ)/100000 < 0))]
    decide

/-- C10: a missing price renders as the empty string, a distinct outcome
from the rendering of a numeric zero. -/
theorem fmt_price_none_empty :
    fmt_price none = "" ∧ fmt_price none ≠ fmt_price (some 0) := by
  refine ⟨rfl, ?_⟩
  have hp : fmtPlaces (0:ℚ) = 10 := by
    unfold fmtPlaces
    rw [if_neg (by norm_num), if_neg (by norm_num), if_neg (by norm_num),
      if_neg (by norm_num)]
  have hm : roundHalfUpAbs (0:ℚ) 10 = 0 := by
    have h : (⌊|(0:ℚ)| * 10 ^ 10 + 1/2⌋ : ℤ) = 0 := by norm_num
    unfold roundHalfUpAbs
    rw [h]
    rfl
  rw [fmt_price_some, hp, hm, if_neg (by norm_num : ¬ ((0:ℚ) < 0))]
  decide

theorem merge_write_key_stable_witness :
    (mergeRows (mergeRows [] [rowV1]) [rowV2]).filter
      (fun r => decide (rowKey r = ("2024-01-01", "FOO", "lewis-listing")))
      = [rowV2] :=
  (merge_write_key_stable [] [rowV1] [rowV2]
    ("2024-01-01", "FOO", "lewis-listing") rowV2 (by decide)).1

theorem fmt_price_precision_witness :
    decPlaces (fmt_price (some 5)) = 4 :=
  fmt_price_precision.2.2.2.2.2.2.1 5 (by norm_num)
